import Mathlib

/-!
Verification of make_ssl.py: a shallow embedding of its pure core.

The script is an interactive CLI that extracts domain names from nginx
configuration files, verifies ACME challenge URLs, builds the argument
list for the external simp_le tool, writes a renewal script and prints
TLS configuration. We embed the string processing, the argument
construction, the filesystem-dependent checks (over an explicit
association-list filesystem) and the aggregation of verification
responses, and prove or refute the spec claims about them.

Conventions: Python strings are Lean String; a file is its name paired
with its list of lines; the filesystem is an association list from path
to content; functions that can abort (assert / ctx.exit) return Except.
-/

/-- Python str.split() / str.strip() whitespace class. -/
def isWS (c : Char) : Bool :=
  c == ' ' || c == '\t' || c == '\n' || c == '\r' || c == '\x0b' || c == '\x0c'

/-- All characters of the list are non-whitespace. -/
def noWS (l : List Char) : Bool := l.all fun c => !isWS c

/-- Helper for whitespace splitting: `acc` holds the reversed current token. -/
def splitWSAux : List Char → List Char → List (List Char)
  | [], acc => if acc == [] then [] else [acc.reverse]
  | c :: cs, acc =>
    if isWS c then
      if acc == [] then splitWSAux cs [] else acc.reverse :: splitWSAux cs []
    else splitWSAux cs (c :: acc)

/-- Python str.split() with no argument: split on whitespace runs, no empty
tokens.  Note that line.strip().split() in the source equals line.split(). -/
def splitWS (l : List Char) : List (List Char) := splitWSAux l []

/-- Remove the characters satisfying `p` from both ends of the list, as
Python str.strip(chars) does. -/
def dropEnds (p : Char → Bool) (l : List Char) : List Char :=
  ((l.dropWhile p).reverse.dropWhile p).reverse

/-- Python s.strip() with default argument: whitespace trimmed at both ends. -/
def pyStripWS (s : String) : String := String.mk (dropEnds isWS s.data)

/-- Python d.strip(';') as used in get_domains: semicolons trimmed at BOTH ends. -/
def stripSemis (s : String) : String := String.mk (dropEnds (fun c => c == ';') s.data)

/-- Trailing-only variant: semicolons trimmed at the right end only.  This is
the reading the specification describes for get_domains. -/
def rstripSemis (s : String) : String :=
  String.mk (s.data.reverse.dropWhile (fun c => c == ';')).reverse

/-- The first list is a leading segment of the second. -/
def isPre : List Char → List Char → Bool
  | [], _ => true
  | _ :: _, [] => false
  | a :: as, b :: bs => a == b && isPre as bs

/-- Python substring containment `pat in l`. -/
def hasSubstr (pat : List Char) : List Char → Bool
  | [] => pat == []
  | c :: cs => isPre pat (c :: cs) || hasSubstr pat cs

/-- Model of os.path.expanduser applied to the tilde: a fixed home directory. -/
def HOME_DIR : String := "/home/user"

def LE_BASE : String := HOME_DIR ++ "/letsencrypt"

def CERTS_DIR : String := LE_BASE ++ "/certs"

def CHALLENGE_DIR : String := LE_BASE ++ "/challenge"

/-- Model of find_executable applied to the tool name. -/
def SIMP_LE : String := "simp_le"

/-- The module-level default argument list (mutable in the source!). -/
def SIMP_LE_ARGS : List String := ["-f", "fullchain.pem", "-f", "key.pem"]

/-- An nginx configuration file: its path and its lines. -/
abbrev NFile := String × List String

/-- A line matches when it contains the directive as a substring
(the source tests membership of the directive in the whole line). -/
def lineMatches (line : String) : Bool := hasSubstr ("server_name".data) line.data

/-- line.strip().split() of the source. -/
def lineParts (line : String) : List String := (splitWS line.data).map fun l => String.mk l

/-- Inner loop of get_domains over one file: collect parts[1:] of every
matching line, aborting when a matching line has fewer than two fields. -/
def collectFile (name : String) : List String → Except String (List String)
  | [] => Except.ok []
  | line :: rest =>
    if lineMatches line then
      if 2 ≤ (lineParts line).length then
        (collectFile name rest).map fun ds => (lineParts line).tail ++ ds
      else Except.error ("Invalid server_name section in " ++ name)
    else collectFile name rest

/-- Outer loop of get_domains: files in order, extending one list. -/
def collectDomains : List NFile → Except String (List String)
  | [] => Except.ok []
  | f :: rest =>
    match collectFile f.1 f.2 with
    | Except.error m => Except.error m
    | Except.ok ds => (collectDomains rest).map fun ds2 => ds ++ ds2

/-- Python sorted(set(l)) for strings: deduplicate, then sort. -/
def sortedDedup (l : List String) : List String :=
  List.insertionSort (· ≤ ·) l.dedup

/-- get_domains of the source: sorted set of the collected tokens, with
semicolons trimmed at both ends of each token by str.strip(';'). -/
def get_domains (files : List NFile) : Except String (List String) :=
  match collectDomains files with
  | Except.error m => Except.error m
  | Except.ok ds => Except.ok (sortedDedup (ds.map stripSemis))

/-- Variant following the specification text of claim C3 word for word:
identical, except that only TRAILING semicolons are trimmed from each
token.  Compared against get_domains, which strips both ends. -/
def get_domains_trailing (files : List NFile) : Except String (List String) :=
  match collectDomains files with
  | Except.error m => Except.error m
  | Except.ok ds => Except.ok (sortedDedup (ds.map rstripSemis))

/-- Tokens a single line contributes: everything after the first
whitespace-separated field of a matching line. -/
def lineDoms (line : String) : List String :=
  if lineMatches line then (lineParts line).tail else []

/-- All tokens one file contributes, in line order. -/
def fileDoms (f : NFile) : List String := f.2.flatMap lineDoms

/-- A line passes the assertion: it does not match, or it has two fields. -/
def lineOk (line : String) : Bool :=
  !lineMatches line || decide (2 ≤ (lineParts line).length)

/-- Every matching line of the file has at least two fields. -/
def fileOk (f : NFile) : Bool := f.2.all lineOk

/-- The comprehension-style description of the extracted raw tokens: every
token after the first field of every matching line, files in order. -/
def specDomainTokens (files : List NFile) : List String := files.flatMap fileDoms

/-- The per-domain template after .strip() and %-substitution: the source
computes ("  -d %s:" + CHALLENGE_DIR).strip() % domain.strip(). -/
def DOMAIN_PART (d : String) : String := "-d " ++ pyStripWS d ++ ":" ++ CHALLENGE_DIR

/-- The .split() of the substituted per-domain template: the tokens the
source extends the argument list with for one domain. -/
def domainArgs (d : String) : List String :=
  (splitWS (DOMAIN_PART d).data).map fun l => String.mk l

/-- Result of get_simp_le_args together with the value the module-level
SIMP_LE_ARGS list holds afterwards.  In the source, when email is falsy the
local name aliases the module-level list and list.extend mutates it in
place; when email is truthy the concatenation creates a fresh list and the
module-level list is untouched. -/
structure ArgsResult where
  args : List String
  globalAfter : List String
deriving DecidableEq

/-- get_simp_le_args of the source (list form), with the module-level
SIMP_LE_ARGS value threaded explicitly as `g`. -/
def get_simp_le_args (g : List String) (email : String) (domains : List String) :
    ArgsResult :=
  let base := if email.isEmpty then g else ["--email", email] ++ g
  let args := base ++ domains.flatMap domainArgs
  ⟨args, if email.isEmpty then args else g⟩

/-- The filesystem: an association list from path to file content; a write
shadows earlier entries. -/
abbrev FS := List (String × String)

/-- os.path.exists / reading: the first entry for the path, if any. -/
def fsLookup (fs : FS) (p : String) : Option String :=
  (fs.find? fun e => e.1 == p).map fun e => e.2

/-- open(p, w).write(c). -/
def fsWrite (fs : FS) (p c : String) : FS := (p, c) :: fs

/-- The renew-script template with the joined arguments substituted. -/
def SIMP_LE_TMPL (args : String) : String :=
  "!#/bin/bash\ncd " ++ CERTS_DIR ++ "\n" ++ SIMP_LE ++ " " ++ args ++ "\n"

/-- Python input(...).lower()[:1] as used for confirmation prompts: the
string is lowercased and at most its first character kept. -/
def pyLowerFirst (s : String) : String := String.mk ((s.data.map Char.toLower).take 1)

/-- Outcome of generate_renew_script: the final filesystem, the returned
domains or the abort message, and the module-level list afterwards. -/
structure RenewResult where
  fs : FS
  outcome : Except String (List String)
  globalAfter : List String

/-- generate_renew_script of the source.  The argument list is built (and,
for a falsy email, the module-level list mutated) BEFORE the overwrite
check; the write happens only after the check passes.  `answer` is the
response the operator would give the overwrite prompt. -/
def generate_renew_script (g : List String) (fs0 : FS) (domains : List String)
    (save_to : String) (yes : Bool) (answer : String) (email : String) : RenewResult :=
  let r := get_simp_le_args g email domains
  let script := SIMP_LE_TMPL (String.intercalate " \\\n" r.args)
  match fsLookup fs0 save_to with
  | none => ⟨fsWrite fs0 save_to script, Except.ok domains, r.globalAfter⟩
  | some _ =>
    if yes then
      ⟨fsWrite fs0 save_to script, Except.ok domains, r.globalAfter⟩
    else if pyLowerFirst answer == "y" then
      ⟨fsWrite fs0 save_to script, Except.ok domains, r.globalAfter⟩
    else
      ⟨fs0, Except.error "Cowardly escape!", r.globalAfter⟩

/-- The two artifact files configure_ssl_nginx checks for. -/
def certKeys : List String := ["fullchain.pem", "key.pem"]

/-- The static TLS configuration block printed for manual insertion. -/
def NGINX_SSL : String :=
  "\n### add to server listening to port 443 section ###\n    ssl_certificate      "
  ++ CERTS_DIR ++ "/fullchain.pem;\n    ssl_certificate_key  " ++ CERTS_DIR
  ++ "/key.pem;\n\n    add_header Strict-Transport-Security max-age=15768000;\n"
  ++ "    ssl_session_timeout  5m;\n    ssl_protocols     TLSv1.2 TLSv1.1 TLSv1;\n"
  ++ "    ssl_session_cache shared:SSL:10m;\n    ssl_ciphers (cipher-list);\n"
  ++ "    ssl_prefer_server_ciphers on;\n"

/-- The message printed before the TLS block. -/
def SSL_CONGRATS : String :=
  "Congrats bro! Now that you have obtained the certificates, update"
  ++ " each server configuration with the following section:"

/-- The assertion message of the post-issuance precondition check. -/
def PRECOND_MSG : String :=
  "Certificate directory does not exist yet, please run the simp_le"
  ++ " sub-command first (or if it is your first time, follow the interactive"
  ++ " guide in the main command)."

/-- configure_ssl_nginx of the source: the artifact-existence assertion runs
ONLY when yes is false; the TLS block is printed afterwards either way. -/
def configure_ssl_nginx (yes : Bool) (fs0 : FS) : Except String String :=
  if yes then Except.ok (SSL_CONGRATS ++ "\n" ++ NGINX_SSL)
  else if certKeys.all (fun k => (fsLookup fs0 (CERTS_DIR ++ "/" ++ k)).isSome) then
    Except.ok (SSL_CONGRATS ++ "\n" ++ NGINX_SSL)
  else Except.error PRECOND_MSG

/-- The domain-list construction of confirm_domains: requires one of the two
inputs, and when configuration files are given APPENDS the extracted domains
to the explicitly supplied ones. -/
def confirm_domains_list (nginx_files : List NFile) (domains : List String) :
    Except String (List String) :=
  if nginx_files.isEmpty && domains.isEmpty then
    Except.error "Either --nginx-files or --domains are required"
  else if nginx_files.isEmpty then Except.ok domains
  else (get_domains nginx_files).map fun ds => domains ++ ds

/-- One HTTP response of the verification loop: the request URL and the
status code. -/
structure HttpResponse where
  url : String
  status : Nat
deriving DecidableEq

/-- Truthiness of a requests.Response: response.ok, that is status < 400. -/
def responseTruthy (r : HttpResponse) : Bool := decide (r.status < 400)

/-- The challenge URL requested for a domain. -/
def challengeUrl (d : String) : String := "http://" ++ d ++ "/letsencrypt/challenge/"

/-- The verification step of confirm_domains over the received responses:
success when every status is 404; otherwise abort with the aggregated
message, whose error lines are generated from the responses that are FALSY
(status at least 400) rather than from those that are not 404. -/
def confirm_verify (responses : List HttpResponse) : Except String Unit :=
  if responses.all (fun r => r.status == 404) then Except.ok ()
  else Except.error ("Errors found:\n\n" ++ String.intercalate "\n"
    ((responses.filter fun r => !responseTruthy r).map
      fun r => r.url ++ " returned " ++ toString r.status))

/-- A Python sequence value: click passes a subcommand's nargs=-1 argument
as a tuple, while the root command passes the list built by
get_simp_le_args.  Tuples are immutable. -/
inductive PySeq where
  | list : List String → PySeq
  | tuple : List String → PySeq
deriving DecidableEq

/-- seq.append(x): in-place extension for a list; an AttributeError for a
tuple, which has no append method. -/
def pyAppend : PySeq → String → Except String PySeq
  | PySeq.list xs, s => Except.ok (PySeq.list (xs ++ [s]))
  | PySeq.tuple _, _ =>
    Except.error "AttributeError: tuple object has no attribute append"

/-- What run_simp_le does after ensuring CERTS_DIR exists: either an
exception before the external tool, or the invocation of simp_le.main with
the final arguments. -/
inductive SimpLeOutcome where
  | raised : String → SimpLeOutcome
  | invoked : PySeq → SimpLeOutcome
deriving DecidableEq

/-- run_simp_le of the source: with debug set it appends -vv to its
argument sequence before calling the external tool. -/
def run_simp_le (debug : Bool) (simp_le_args : PySeq) : SimpLeOutcome :=
  if debug then
    match pyAppend simp_le_args "-vv" with
    | Except.error m => SimpLeOutcome.raised m
    | Except.ok args => SimpLeOutcome.invoked args
  else SimpLeOutcome.invoked simp_le_args

/-- The simp_le subcommand: click hands the collected extra arguments to
run_simp_le as a tuple. -/
def run_simp_le_subcommand (debug : Bool) (args : List String) : SimpLeOutcome :=
  run_simp_le debug (PySeq.tuple args)

/-- Two files with the same path whose lines are a permutation of each
other. -/
def FilePerm (f g : NFile) : Prop := f.1 = g.1 ∧ f.2.Perm g.2

/-- `b` arises from `a` by permuting the lines within files and then
permuting the file list. -/
def FilesPerm (a b : List NFile) : Prop :=
  ∃ c, List.Forall₂ FilePerm a c ∧ c.Perm b

/-! ### Helper lemmas about the string utilities -/

theorem strMkData (s : String) : String.mk s.data = s := by
  cases s
  rfl

theorem dropWhileAllFalse {p : Char → Bool} {l : List Char}
    (h : ∀ c ∈ l, p c = false) : l.dropWhile p = l := by
  cases l with
  | nil => rfl
  | cons c cs => simp [List.dropWhile, h c (List.mem_cons_self c cs)]

theorem noWSIff {l : List Char} : noWS l = true ↔ ∀ c ∈ l, isWS c = false := by
  simp [noWS, List.all_eq_true]

theorem pyStripWSOfNoWS {s : String} (h : noWS s.data = true) : pyStripWS s = s := by
  have h1 : ∀ c ∈ s.data, isWS c = false := noWSIff.mp h
  have h2 : ∀ c ∈ s.data.reverse, isWS c = false := by
    intro c hc
    exact h1 c (List.mem_reverse.mp hc)
  simp [pyStripWS, dropEnds, dropWhileAllFalse h1, dropWhileAllFalse h2,
    List.reverse_reverse, strMkData]

theorem splitWSAuxAllNonWS :
    ∀ (l : List Char) (acc : List Char), (∀ c ∈ l, isWS c = false) →
      (acc = [] → l ≠ []) → splitWSAux l acc = [acc.reverse ++ l] := by
  intro l
  induction l with
  | nil =>
    intro acc _ hne
    have hacc : acc ≠ [] := fun h => (hne h) rfl
    simp [splitWSAux, hacc]
  | cons c cs ih =>
    intro acc h _
    have hc : isWS c = false := h c (List.mem_cons_self c cs)
    have hcs : ∀ x ∈ cs, isWS x = false := fun x hx => h x (List.mem_cons_of_mem _ hx)
    simp [splitWSAux, hc, ih (c :: acc) hcs (by simp)]

theorem splitWSAuxSep :
    ∀ (l1 : List Char) (acc : List Char) (l2 : List Char),
      (∀ c ∈ l1, isWS c = false) → (∀ c ∈ l2, isWS c = false) →
      (acc = [] → l1 ≠ []) → l2 ≠ [] →
      splitWSAux (l1 ++ ' ' :: l2) acc = [acc.reverse ++ l1, l2] := by
  intro l1
  induction l1 with
  | nil =>
    intro acc l2 _ h2 hne hl2
    have hacc : acc ≠ [] := fun h => (hne h) rfl
    simp [splitWSAux, hacc, isWS, splitWSAuxAllNonWS l2 [] h2 (fun _ => hl2)]
  | cons c t ih =>
    intro acc l2 h1 h2 _ hl2
    have hc : isWS c = false := h1 c (List.mem_cons_self c t)
    have ht : ∀ x ∈ t, isWS x = false := fun x hx => h1 x (List.mem_cons_of_mem _ hx)
    simp [splitWSAux, hc, ih (c :: acc) l2 ht h2 (by simp) hl2]

theorem splitWSPair {l1 l2 : List Char} (h1 : ∀ c ∈ l1, isWS c = false)
    (h2 : ∀ c ∈ l2, isWS c = false) (hl1 : l1 ≠ []) (hl2 : l2 ≠ []) :
    splitWS (l1 ++ ' ' :: l2) = [l1, l2] := by
  simpa [splitWS] using splitWSAuxSep l1 [] l2 h1 h2 (fun _ => hl1) hl2

theorem splitWSAuxNeNil :
    ∀ (l : List Char) (acc : List Char), acc ≠ [] → splitWSAux l acc ≠ [] := by
  intro l
  induction l with
  | nil =>
    intro acc hacc
    simp [splitWSAux, hacc]
  | cons c cs ih =>
    intro acc hacc
    by_cases hc : isWS c = true
    · simp [splitWSAux, hc, hacc]
    · have hc' : isWS c = false := by
        cases h : isWS c
        · rfl
        · exact absurd h hc
      simp [splitWSAux, hc']
      exact ih (c :: acc) (by simp)

theorem splitWSConsNeNil {c : Char} {cs : List Char} (h : isWS c = false) :
    splitWS (c :: cs) ≠ [] := by
  simp [splitWS, splitWSAux, h]
  exact splitWSAuxNeNil cs [c] (by simp)

theorem domainPartData (d : String) :
    (DOMAIN_PART d).data =
      ['-', 'd'] ++ ' ' :: ((pyStripWS d).data ++ ':' :: CHALLENGE_DIR.data) := by
  simp [DOMAIN_PART, String.data_append, List.append_assoc]

theorem domainArgsEq {d : String} (h : noWS d.data = true) :
    domainArgs d = ["-d", d ++ ":" ++ CHALLENGE_DIR] := by
  have hstrip : pyStripWS d = d := pyStripWSOfNoWS h
  have h2 : ∀ c ∈ d.data ++ ':' :: CHALLENGE_DIR.data, isWS c = false := by
    intro c hc
    rcases List.mem_append.mp hc with h1 | h1
    · exact noWSIff.mp h c h1
    · rcases List.mem_cons.mp h1 with h3 | h3
      · subst h3
        rfl
      · exact noWSIff.mp (by decide : noWS CHALLENGE_DIR.data = true) c h3
  have hne : d.data ++ ':' :: CHALLENGE_DIR.data ≠ [] := by
    simp
  have hsplit : splitWS ((DOMAIN_PART d).data) =
      [['-', 'd'], d.data ++ ':' :: CHALLENGE_DIR.data] := by
    rw [domainPartData, hstrip]
    exact splitWSPair (by decide) h2 (by simp) hne
  have hmk : String.mk (d.data ++ ':' :: CHALLENGE_DIR.data) = d ++ ":" ++ CHALLENGE_DIR := by
    have : (d ++ ":" ++ CHALLENGE_DIR).data = d.data ++ ':' :: CHALLENGE_DIR.data := by
      simp [String.data_append]
    rw [← this, strMkData]
  simp [domainArgs, hsplit, hmk]

theorem domainArgsNeNil (d : String) : domainArgs d ≠ [] := by
  have h : domainArgs d = (splitWS ((DOMAIN_PART d).data)).map fun l => String.mk l := rfl
  rw [h, domainPartData]
  have := @splitWSConsNeNil '-'
    ('d' :: ' ' :: ((pyStripWS d).data ++ ':' :: CHALLENGE_DIR.data)) (by decide)
  simp only [List.cons_append, List.nil_append] at *
  simp [List.map_eq_nil_iff]
  exact this

/-! ### Lemmas about sortedDedup and the get_domains loops -/

theorem sortedDedupPerm {l1 l2 : List String} (h : l1.Perm l2) :
    sortedDedup l1 = sortedDedup l2 := by
  exact List.eq_of_perm_of_sorted
    ((List.perm_insertionSort (· ≤ ·) l1.dedup).trans
      (h.dedup.trans (List.perm_insertionSort (· ≤ ·) l2.dedup).symm))
    (List.sorted_insertionSort (· ≤ ·) l1.dedup)
    (List.sorted_insertionSort (· ≤ ·) l2.dedup)

theorem sortedDedupNodup (l : List String) : (sortedDedup l).Nodup :=
  (List.perm_insertionSort (· ≤ ·) l.dedup).symm.nodup (List.nodup_dedup l)

theorem collectFileOk (name : String) {lines : List String}
    (h : ∀ l ∈ lines, lineOk l = true) :
    collectFile name lines = Except.ok (lines.flatMap lineDoms) := by
  induction lines with
  | nil => rfl
  | cons line rest ih =>
    have hl : lineOk line = true := h line (List.mem_cons_self line rest)
    have hr : ∀ l ∈ rest, lineOk l = true := fun l hm => h l (List.mem_cons_of_mem _ hm)
    by_cases hm : lineMatches line = true
    · have hlen : 2 ≤ (lineParts line).length := by
        simp [lineOk, hm] at hl
        exact hl
    
      simp [collectFile, hm, hlen, ih hr, List.flatMap_cons, lineDoms, Except.map]
    · have hm' : lineMatches line = false := by
        cases hq : lineMatches line
        · rfl
        · exact absurd hq hm
      simp [collectFile, hm', ih hr, List.flatMap_cons, lineDoms]

theorem collectFileErr (name : String) {lines : List String}
    (h : ¬ ∀ l ∈ lines, lineOk l = true) :
    ∃ m, collectFile name lines = Except.error m := by
  induction lines with
  | nil => exact absurd (by intro l hl; cases hl) h
  | cons line rest ih =>
    by_cases hl : lineOk line = true
    · have hr : ¬ ∀ l ∈ rest, lineOk l = true := by
        intro hr
        apply h
        intro l hm
        rcases List.mem_cons.mp hm with h1 | h2
        · exact h1 ▸ hl
        · exact hr l h2
      obtain ⟨m, hm2⟩ := ih hr
      by_cases hm : lineMatches line = true
      · have hlen : 2 ≤ (lineParts line).length := by
          simp [lineOk, hm] at hl
          exact hl
        exact ⟨m, by simp [collectFile, hm, hlen, hm2, Except.map]⟩
      · have hm' : lineMatches line = false := by
          cases hq : lineMatches line
          · rfl
          · exact absurd hq hm
        exact ⟨m, by simp [collectFile, hm', hm2]⟩
    · have hm : lineMatches line = true := by
        by_contra hc
        have hm' : lineMatches line = false := by
          cases hq : lineMatches line
          · rfl
          · exact absurd hq hc
        simp [lineOk, hm'] at hl
      have hlen : ¬ 2 ≤ (lineParts line).length := by
        by_contra hc
        simp [lineOk, hm, hc] at hl
      exact ⟨"Invalid server_name section in " ++ name, by simp [collectFile, hm, hlen]⟩

theorem collectDomainsOk {files : List NFile}
    (h : ∀ f ∈ files, fileOk f = true) :
    collectDomains files = Except.ok (files.flatMap fileDoms) := by
  induction files with
  | nil => rfl
  | cons f rest ih =>
    have hf : ∀ l ∈ f.2, lineOk l = true := by
      have := h f (List.mem_cons_self f rest)
      simpa [fileOk, List.all_eq_true] using this
    have hr : ∀ g ∈ rest, fileOk g = true := fun g hm => h g (List.mem_cons_of_mem _ hm)
    simp [collectDomains, collectFileOk f.1 hf, ih hr, List.flatMap_cons, fileDoms, Except.map]

theorem collectDomainsErr {files : List NFile}
    (h : ¬ ∀ f ∈ files, fileOk f = true) :
    ∃ m, collectDomains files = Except.error m := by
  induction files with
  | nil => exact absurd (by intro f hf; cases hf) h
  | cons f rest ih =>
    by_cases hf : fileOk f = true
    · have hr : ¬ ∀ g ∈ rest, fileOk g = true := by
        intro hr
        apply h
        intro g hm
        rcases List.mem_cons.mp hm with h1 | h2
        · exact h1 ▸ hf
        · exact hr g h2
      obtain ⟨m, hm⟩ := ih hr
      have hfl : ∀ l ∈ f.2, lineOk l = true := by
        simpa [fileOk, List.all_eq_true] using hf
      exact ⟨m, by simp [collectDomains, collectFileOk f.1 hfl, hm, Except.map]⟩
    · have hfl : ¬ ∀ l ∈ f.2, lineOk l = true := by
        intro hc
        exact hf (by simpa [fileOk, List.all_eq_true] using hc)
      obtain ⟨m, hm⟩ := collectFileErr f.1 hfl
      exact ⟨m, by simp [collectDomains, hm]⟩

theorem getDomainsOk {files : List NFile} (h : ∀ f ∈ files, fileOk f = true) :
    get_domains files = Except.ok (sortedDedup ((specDomainTokens files).map stripSemis)) := by
  simp [get_domains, collectDomainsOk h, specDomainTokens]

theorem getDomainsErr {files : List NFile} (h : ¬ ∀ f ∈ files, fileOk f = true) :
    ∃ m, get_domains files = Except.error m := by
  obtain ⟨m, hm⟩ := collectDomainsErr h
  exact ⟨m, by simp [get_domains, hm]⟩

/-! ### Permutation invariance machinery -/

theorem fileOkOfPerm {f g : NFile} (h : FilePerm f g) (hf : fileOk f = true) :
    fileOk g = true := by
  rcases h with ⟨_, hp⟩
  simp only [fileOk, List.all_eq_true] at *
  intro l hl
  exact hf l (hp.mem_iff.mpr hl)

theorem fileDomsPerm {f g : NFile} (h : FilePerm f g) :
    (fileDoms f).Perm (fileDoms g) :=
  h.2.flatMap_right lineDoms

theorem forall2FileOk {a c : List NFile} (h : List.Forall₂ FilePerm a c) :
    (∀ f ∈ a, fileOk f = true) → ∀ g ∈ c, fileOk g = true := by
  induction h with
  | nil =>
    intro _ g hg
    cases hg
  | cons h1 _ ih =>
    intro ha g hg
    rcases List.mem_cons.mp hg with h2 | h2
    · subst h2
      exact fileOkOfPerm h1 (ha _ (List.mem_cons_self _ _))
    · exact ih (fun f hf => ha f (List.mem_cons_of_mem _ hf)) g h2

theorem forall2Tokens {a c : List NFile} (h : List.Forall₂ FilePerm a c) :
    (specDomainTokens a).Perm (specDomainTokens c) := by
  induction h with
  | nil => simp [specDomainTokens]
  | cons h1 _ ih =>
    simp only [specDomainTokens, List.flatMap_cons] at *
    exact (fileDomsPerm h1).append ih

theorem specTokensPermOfPerm {c b : List NFile} (h : c.Perm b) :
    (specDomainTokens c).Perm (specDomainTokens b) :=
  h.flatMap_right fileDoms

theorem permFileOk {c b : List NFile} (h : c.Perm b)
    (hc : ∀ f ∈ c, fileOk f = true) : ∀ f ∈ b, fileOk f = true :=
  fun f hf => hc f (h.mem_iff.mpr hf)

theorem getDomainsOkNodup {files : List NFile} {ds : List String}
    (h : get_domains files = Except.ok ds) : ds.Nodup := by
  cases hc : collectDomains files with
  | error m => simp [get_domains, hc] at h
  | ok raw =>
    simp [get_domains, hc] at h
    rw [← h]
    exact sortedDedupNodup _

/-! ### The claims -/

/-- C1 (code bug): a response whose status is not 404 but is below 400 —
here a 200 — terminates the verification run, yet the aggregated failure
message lists no domain/status pair at all: the source filters the error
lines by response truthiness (status at least 400) instead of by status not
equal to 404, so the offending URL does not appear in the message. -/
theorem confirm_verify_misses_ok_status :
    confirm_verify [⟨challengeUrl "a.example", 200⟩] = Except.error "Errors found:\n\n" ∧
      hasSubstr ("a.example".data) ("Errors found:\n\n".data) = false :=
  ⟨rfl, by decide⟩

/-- C2 counterexample: with --yes and no certificate artifacts on the
filesystem at all, the post-issuance stage succeeds — the file-existence
check is skipped — while the same stage without --yes fails it. -/
theorem configure_ssl_nginx_yes_skips_check :
    configure_ssl_nginx true [] = Except.ok (SSL_CONGRATS ++ "\n" ++ NGINX_SSL) ∧
      configure_ssl_nginx false [] = Except.error PRECOND_MSG :=
  ⟨rfl, rfl⟩

/-- C2 (amended): --yes suppresses interactive prompts, and in the
post-issuance stage it also skips the artifact-existence check entirely:
with --yes the stage succeeds even when artifacts are absent, while
without --yes their absence aborts it; in renewal-script generation the
target-exists check still runs under --yes but proceeds to overwrite. -/
theorem yes_skips_postissuance_check (fs0 : FS)
    (hmiss : certKeys.all (fun k => (fsLookup fs0 (CERTS_DIR ++ "/" ++ k)).isSome) = false) :
    configure_ssl_nginx true fs0 = Except.ok (SSL_CONGRATS ++ "\n" ++ NGINX_SSL) ∧
      configure_ssl_nginx false fs0 = Except.error PRECOND_MSG ∧
      ∀ g domains save_to answer email c, fsLookup fs0 save_to = some c →
        (generate_renew_script g fs0 domains save_to true answer email).outcome =
          Except.ok domains := by
  refine ⟨rfl, by simp [configure_ssl_nginx, hmiss], ?_⟩
  intro g domains save_to answer email c hc
  simp [generate_renew_script, hc]

theorem yes_skips_postissuance_check_witness :
    configure_ssl_nginx true [] = Except.ok (SSL_CONGRATS ++ "\n" ++ NGINX_SSL) ∧
      configure_ssl_nginx false [] = Except.error PRECOND_MSG ∧
      ∀ g domains save_to answer email c, fsLookup [] save_to = some c →
        (generate_renew_script g [] domains save_to true answer email).outcome =
          Except.ok domains :=
  yes_skips_postissuance_check [] (by decide)

/-- C3 counterexample: on the token ";a" the code trims the LEADING
semicolon too (str.strip removes the character from both ends), while the
claim describes trimming only trailing separators: the two computations
disagree on this input. -/
theorem get_domains_strips_leading_semicolons :
    get_domains [("conf", ["server_name ;a"])] = Except.ok ["a"] ∧
      get_domains_trailing [("conf", ["server_name ;a"])] = Except.ok [";a"] ∧
      ("a" : String) ≠ ";a" :=
  ⟨rfl, rfl, by decide⟩

/-- C3 (amended): on success the extractor returns exactly the sorted
deduplication of every token after the first whitespace-separated field of
every directive-matching line, with semicolons trimmed from BOTH ends of
each token, and the result is invariant under permutation of the input file
list and of the lines within each file. -/
theorem get_domains_sorted_dedup_perm (files1 files2 : List NFile)
    (l : List String) (hp : FilesPerm files1 files2)
    (h1 : get_domains files1 = Except.ok l) :
    get_domains files2 = Except.ok l ∧
      l = sortedDedup ((specDomainTokens files1).map stripSemis) := by
  have hOk1 : ∀ f ∈ files1, fileOk f = true := by
    by_contra hc
    obtain ⟨m, hm⟩ := getDomainsErr hc
    rw [hm] at h1
    cases h1
  rcases hp with ⟨c, hf2, hcb⟩
  have hOk2 : ∀ f ∈ files2, fileOk f = true :=
    permFileOk hcb (forall2FileOk hf2 hOk1)
  have htok : (specDomainTokens files1).Perm (specDomainTokens files2) :=
    (forall2Tokens hf2).trans (specTokensPermOfPerm hcb)
  have hl : l = sortedDedup ((specDomainTokens files1).map stripSemis) := by
    rw [getDomainsOk hOk1] at h1
    simpa using h1.symm
  refine ⟨?_, hl⟩
  rw [getDomainsOk hOk2, hl, sortedDedupPerm (htok.map stripSemis)]

theorem get_domains_sorted_dedup_perm_witness :
    get_domains [("b", ["junk"]), ("a", ["server_name d;", "root x;"])] =
        Except.ok ["d"] ∧
      (["d"] : List String) = sortedDedup ((specDomainTokens
        [("a", ["root x;", "server_name d;"]), ("b", ["junk"])]).map stripSemis) :=
  get_domains_sorted_dedup_perm
    [("a", ["root x;", "server_name d;"]), ("b", ["junk"])]
    [("b", ["junk"]), ("a", ["server_name d;", "root x;"])]
    ["d"]
    ⟨[("a", ["server_name d;", "root x;"]), ("b", ["junk"])],
      List.Forall₂.cons ⟨rfl, by decide⟩
        (List.Forall₂.cons ⟨rfl, by decide⟩ List.Forall₂.nil),
      by decide⟩
    rfl

/-- C4: for a non-empty email and whitespace-free domains a and b, starting
from the pristine module-level default list, the generated argument list is
exactly the email flag and value, the two fixed output-file flags, then one
challenge-directory argument per domain in input order. -/
theorem get_simp_le_args_order (e a b : String) (he : e.isEmpty = false)
    (ha : noWS a.data = true) (hb : noWS b.data = true) :
    (get_simp_le_args SIMP_LE_ARGS e [a, b]).args =
      ["--email", e, "-f", "fullchain.pem", "-f", "key.pem",
       "-d", a ++ ":" ++ CHALLENGE_DIR, "-d", b ++ ":" ++ CHALLENGE_DIR] := by
  simp [get_simp_le_args, he, SIMP_LE_ARGS, domainArgsEq ha, domainArgsEq hb]

theorem get_simp_le_args_order_witness :
    (get_simp_le_args SIMP_LE_ARGS "user@example.com" ["a.example", "b.example"]).args =
      ["--email", "user@example.com", "-f", "fullchain.pem", "-f", "key.pem",
       "-d", "a.example" ++ ":" ++ CHALLENGE_DIR,
       "-d", "b.example" ++ ":" ++ CHALLENGE_DIR] :=
  get_simp_le_args_order "user@example.com" "a.example" "b.example" rfl
    (by decide) (by decide)

/-- C5 counterexample: the hostname a appears both explicitly and in a
configuration file, and the confirmed list keeps both copies: the
combination is list concatenation, not a set union. -/
theorem confirm_domains_duplicates :
    confirm_domains_list [("conf", ["server_name a;"])] ["a"] = Except.ok ["a", "a"] ∧
      ¬ List.Nodup ["a", "a"] :=
  ⟨rfl, by decide⟩

/-- C5 (amended): when configuration files are supplied, the confirmed list
is the explicitly supplied domains followed by the extracted ones; the
extracted part itself contains no duplicate, but a hostname occurring both
explicitly and in a configuration file appears twice in the result. -/
theorem confirm_domains_concat_dedup (nginx_files : List NFile)
    (domains l : List String) (hne : nginx_files.isEmpty = false)
    (h : confirm_domains_list nginx_files domains = Except.ok l) :
    ∃ e, get_domains nginx_files = Except.ok e ∧ l = domains ++ e ∧ e.Nodup := by
  simp [confirm_domains_list, hne] at h
  cases hq : get_domains nginx_files with
  | error m =>
    rw [hq] at h
    simp [Except.map] at h
  | ok ds =>
    rw [hq] at h
    simp [Except.map] at h
    exact ⟨ds, rfl, h.symm, getDomainsOkNodup hq⟩

theorem confirm_domains_concat_dedup_witness :
    ∃ e, get_domains [("conf", ["server_name b;"])] = Except.ok e ∧
      (["a", "b"] : List String) = ["a"] ++ e ∧ e.Nodup :=
  confirm_domains_concat_dedup [("conf", ["server_name b;"])] ["a"] ["a", "b"]
    rfl rfl

/-- C6: with the target file present, without --yes, and with a declining
operator answer, renew-script generation aborts with an error and the
filesystem — in particular the existing file content — is byte-for-byte
unchanged: the write happens only after the overwrite check passes. -/
theorem generate_renew_script_decline_keeps_file
    (g : List String) (fs0 : FS) (domains : List String)
    (save_to answer email c : String)
    (hex : fsLookup fs0 save_to = some c)
    (hans : (pyLowerFirst answer == "y") = false) :
    (generate_renew_script g fs0 domains save_to false answer email).outcome =
        Except.error "Cowardly escape!" ∧
      (generate_renew_script g fs0 domains save_to false answer email).fs = fs0 ∧
      fsLookup (generate_renew_script g fs0 domains save_to false answer email).fs
        save_to = some c := by
  refine ⟨?_, ?_, ?_⟩ <;> simp [generate_renew_script, hex, hans]

theorem generate_renew_script_decline_keeps_file_witness :
    (generate_renew_script SIMP_LE_ARGS [("/home/user/renew_script.sh", "old")]
          ["a.example"] "/home/user/renew_script.sh" false "n"
          "user@example.com").outcome = Except.error "Cowardly escape!" ∧
      (generate_renew_script SIMP_LE_ARGS [("/home/user/renew_script.sh", "old")]
          ["a.example"] "/home/user/renew_script.sh" false "n"
          "user@example.com").fs = [("/home/user/renew_script.sh", "old")] ∧
      fsLookup (generate_renew_script SIMP_LE_ARGS
          [("/home/user/renew_script.sh", "old")] ["a.example"]
          "/home/user/renew_script.sh" false "n" "user@example.com").fs
        "/home/user/renew_script.sh" = some "old" :=
  generate_renew_script_decline_keeps_file SIMP_LE_ARGS
    [("/home/user/renew_script.sh", "old")] ["a.example"]
    "/home/user/renew_script.sh" "n" "user@example.com" "old" rfl rfl

/-- C7: without the skip flag the post-issuance report succeeds — printing
the TLS block — whenever both artifact files are present, regardless of
their contents, and fails its precondition check whenever either artifact
is absent. -/
theorem configure_ssl_nginx_precondition (fs0 : FS) (c1 c2 : String)
    (h1 : fsLookup fs0 (CERTS_DIR ++ "/fullchain.pem") = some c1)
    (h2 : fsLookup fs0 (CERTS_DIR ++ "/key.pem") = some c2) :
    configure_ssl_nginx false fs0 = Except.ok (SSL_CONGRATS ++ "\n" ++ NGINX_SSL) ∧
      ∀ fs1 : FS, (fsLookup fs1 (CERTS_DIR ++ "/fullchain.pem") = none ∨
          fsLookup fs1 (CERTS_DIR ++ "/key.pem") = none) →
        configure_ssl_nginx false fs1 = Except.error PRECOND_MSG := by
  have e1 : CERTS_DIR ++ "/" ++ "fullchain.pem" = CERTS_DIR ++ "/fullchain.pem" := rfl
  have e2 : CERTS_DIR ++ "/" ++ "key.pem" = CERTS_DIR ++ "/key.pem" := rfl
  constructor
  · simp [configure_ssl_nginx, certKeys, e1, e2, h1, h2]
  · intro fs1 hmiss
    have hall : certKeys.all
        (fun k => (fsLookup fs1 (CERTS_DIR ++ "/" ++ k)).isSome) = false := by
      rcases hmiss with hm | hm <;> simp [certKeys, e1, e2, hm]
    simp [configure_ssl_nginx, hall]

theorem configure_ssl_nginx_precondition_witness :
    configure_ssl_nginx false
        [(CERTS_DIR ++ "/fullchain.pem", "certdata"),
         (CERTS_DIR ++ "/key.pem", "keydata")] =
      Except.ok (SSL_CONGRATS ++ "\n" ++ NGINX_SSL) ∧
      ∀ fs1 : FS, (fsLookup fs1 (CERTS_DIR ++ "/fullchain.pem") = none ∨
          fsLookup fs1 (CERTS_DIR ++ "/key.pem") = none) →
        configure_ssl_nginx false fs1 = Except.error PRECOND_MSG :=
  configure_ssl_nginx_precondition
    [(CERTS_DIR ++ "/fullchain.pem", "certdata"),
     (CERTS_DIR ++ "/key.pem", "keydata")] "certdata" "keydata" rfl rfl

/-- C8: a directive-matching line with fewer than two whitespace-separated
fields anywhere in the input files aborts the domain extractor with a
validation error instead of returning a result. -/
theorem get_domains_short_line_fails (files : List NFile)
    (h : ∃ f ∈ files, ∃ line ∈ f.2,
      lineMatches line = true ∧ (lineParts line).length < 2) :
    ∃ m, get_domains files = Except.error m := by
  apply getDomainsErr
  intro hc
  obtain ⟨f, hf, line, hl, hm, hlen⟩ := h
  have hok := hc f hf
  simp [fileOk, List.all_eq_true] at hok
  have h2 := hok line hl
  simp [lineOk, hm] at h2
  omega

theorem get_domains_short_line_fails_witness :
    ∃ m, get_domains [("conf", ["server_name"])] = Except.error m :=
  get_domains_short_line_fails [("conf", ["server_name"])] (by decide)

/-- C9: with a falsy email and a nonempty domain list the argument builder
extends the module-level default list in place: a second call with
identical arguments returns a strictly longer list, and the leaked
extension also lengthens a later call that does supply an email. -/
theorem get_simp_le_args_mutates_default (g : List String) (e d : String)
    (ds : List String) (he : e.isEmpty = false) :
    (get_simp_le_args (get_simp_le_args g "" (d :: ds)).globalAfter ""
        (d :: ds)).args.length
        > (get_simp_le_args g "" (d :: ds)).args.length ∧
      (get_simp_le_args (get_simp_le_args g "" (d :: ds)).globalAfter e
          (d :: ds)).args.length
        > (get_simp_le_args g e (d :: ds)).args.length := by
  have hP : 0 < ((d :: ds).flatMap domainArgs).length := by
    cases hq : domainArgs d with
    | nil => exact absurd hq (domainArgsNeNil d)
    | cons x xs => simp [List.flatMap_cons, hq]
  have hempty : ∀ g2 : List String, get_simp_le_args g2 "" (d :: ds) =
      ⟨g2 ++ (d :: ds).flatMap domainArgs, g2 ++ (d :: ds).flatMap domainArgs⟩ :=
    fun g2 => rfl
  have hemail : ∀ g2 : List String, get_simp_le_args g2 e (d :: ds) =
      ⟨["--email", e] ++ (g2 ++ (d :: ds).flatMap domainArgs), g2⟩ := by
    intro g2
    simp [get_simp_le_args, he, List.append_assoc]
  simp only [hempty, hemail, List.length_append]
  constructor <;> omega

theorem get_simp_le_args_mutates_default_witness :
    (get_simp_le_args (get_simp_le_args SIMP_LE_ARGS "" ["a.example"]).globalAfter ""
        ["a.example"]).args.length
        > (get_simp_le_args SIMP_LE_ARGS "" ["a.example"]).args.length ∧
      (get_simp_le_args (get_simp_le_args SIMP_LE_ARGS "" ["a.example"]).globalAfter
          "user@example.com" ["a.example"]).args.length
        > (get_simp_le_args SIMP_LE_ARGS "user@example.com" ["a.example"]).args.length :=
  get_simp_le_args_mutates_default SIMP_LE_ARGS "user@example.com" "a.example" [] rfl

/-- C10: invoking the simp_le subcommand with --debug raises an
AttributeError — appending to the immutable argument tuple — before the
external certificate tool is ever invoked; without --debug the tool is
reached with the arguments intact. -/
theorem run_simp_le_debug_append_fails (args : List String) :
    run_simp_le_subcommand true args =
        SimpLeOutcome.raised "AttributeError: tuple object has no attribute append" ∧
      run_simp_le_subcommand false args = SimpLeOutcome.invoked (PySeq.tuple args) :=
  ⟨rfl, rfl⟩
